import Mathlib

/-!
Shallow embedding of the B-Tree engine from the repository
(core algorithms in btree_core.c, combined source file
src/btree_traversal_sort.c; memory pool in src/src/btree_memory.c;
constants and data layout in src/include/btree_types.h; the int/int
instantiation in src/include/btree_generic.h).

Modelling conventions:
 * Keys and values are Int (the BTREE_DEFINE_INT_INT instantiation:
   compare is (*a > *b) - (*a < *b), copy is memcpy, move is memmove,
   destroy is NULL).
 * A value slot is Option Int: `some v` is a slot whose bytes were
   written with v, `none` is a slot whose bytes are indeterminate
   (freshly malloc-ed storage, never written).  Copying indeterminate
   bytes yields indeterminate bytes.
 * A node's value array has its full physical capacity (max_keys
   slots), because btree_node_insert_key does not shift values in
   internal nodes, so stale physical slots become observable.
   The key array and the child array are kept at their logical
   lengths (num_keys and num_keys + 1): every access the code
   performs on them stays below the logical length.
 * The allocator is modelled by a budget: `none` never fails (the
   default malloc allocator with enough memory), `some n` lets the
   next n allocations succeed and fails afterwards.  Each allocator
   alloc call consumes one unit; free has no effect on the budget.
 * Null C pointers to whole objects (tree, pool) are Option at the
   API boundary, matching the null checks in the source.
-/

/-- Result codes, btree_types.h lines 20-31. -/
inductive BTreeResult : Type where
  | success
  | nullPointer
  | invalidDegree
  | memoryAllocation
  | keyNotFound
  | duplicateKey
  | invalidOperation
  | typeMismatch
  | invalidSize
  | alignmentError
deriving DecidableEq, Repr

/-- A tree node, btree_types.h lines 85-105: leaf flag, key run,
value run (full physical capacity, see module comment), child run.
The parent / next_leaf / prev_leaf back-pointers are represented
implicitly by the tree structure (ownership of a child slot is the
parent relation) and are not separate fields of the pure model. -/
inductive BTreeNode : Type where
  | mk : Bool → List Int → List (Option Int) → List BTreeNode → BTreeNode

def BTreeNode.isLeaf : BTreeNode → Bool
  | .mk lf _ _ _ => lf

def BTreeNode.keys : BTreeNode → List Int
  | .mk _ ks _ _ => ks

def BTreeNode.values : BTreeNode → List (Option Int)
  | .mk _ _ vs _ => vs

def BTreeNode.children : BTreeNode → List BTreeNode
  | .mk _ _ _ cs => cs

/-- The tree header, btree_types.h lines 108-133.  total_memory and
the reserved flags are omitted; the duplicate flag is the only flag
the core reads.  allocBudget models the attached allocator (see
module comment); it is not a field of the C struct. -/
structure BTree : Type where
  root : Option BTreeNode
  degree : Nat
  max_keys : Nat
  min_keys : Nat
  height : Nat
  node_count : Nat
  key_count : Nat
  allow_duplicates : Bool
  allocBudget : Option Nat

/-- One call to tree->allocator->alloc: succeeds unless the budget is
exhausted; consumes one budget unit. -/
def allocTry (t : BTree) : Bool × BTree :=
  match t.allocBudget with
  | none => (true, t)
  | some 0 => (false, t)
  | some (n + 1) => (true, { t with allocBudget := some n })

/-- The int comparator generated by BTREE_DEFINE_COMPARE,
btree_generic.h lines 13-18: (*a > *b) - (*a < *b). -/
def btree_compare_int (a b : Int) : Int :=
  (if a > b then (1 : Int) else 0) - (if a < b then (1 : Int) else 0)

/-- The loop of btree_node_find_key, source lines 548-563.  The C
loop shrinks right - left by at least one per iteration, so it makes
at most length + 1 passes; the first argument is that pass bound, so
the 0 case is never reached from btree_node_find_key.  left and
right stay non-negative whenever 0 <= left, so Lean integer division
agrees with the C division here. -/
def bsearchLoop (ks : List Int) (key : Int) : Nat → Int → Int → Int
  | 0, left, _ => -(left + 1)
  | fuel + 1, left, right =>
    if left ≤ right then
      let mid := (left + right) / 2
      let cmp := btree_compare_int key (ks.getD mid.toNat 0)
      if cmp = 0 then mid
      else if cmp < 0 then bsearchLoop ks key fuel left (mid - 1)
      else bsearchLoop ks key fuel (mid + 1) right
    else -(left + 1)

/-- Binary search in a node's key run, source lines 542-566.
Returns a hit index, or -(gap + 1) for a miss; returns -1 when the
node is empty (the num_keys == 0 guard). -/
def btree_node_find_key (ks : List Int) (key : Int) : Int :=
  if ks.length = 0 then -1
  else bsearchLoop ks key (ks.length + 1) 0 ((ks.length : Int) - 1)

/-- Node allocation, source lines 443-501: allocates the node
struct, the key array, the value array and (internal only) the child
array; frees what it got and reports failure if any of them fails;
on success the arrays are uninitialised (value slots none) and
node_count is incremented. -/
def btree_node_create (t : BTree) (lf : Bool) : Option BTreeNode × BTree :=
  let r₁ := allocTry t
  if !r₁.1 then (none, r₁.2) else
  let r₂ := allocTry r₁.2
  if !r₂.1 then (none, r₂.2) else
  let r₃ := allocTry r₂.2
  if !r₃.1 then (none, r₃.2) else
  if lf then
    (some (.mk true [] (List.replicate t.max_keys none) []),
     { r₃.2 with node_count := r₃.2.node_count + 1 })
  else
    let r₄ := allocTry r₃.2
    if !r₄.1 then (none, r₄.2) else
    (some (.mk false [] (List.replicate t.max_keys none) []),
     { r₄.2 with node_count := r₄.2.node_count + 1 })

mutual

/-- Number of nodes of a subtree (used by the recursive destroy). -/
def countNodes : BTreeNode → Nat
  | .mk _ _ _ cs => 1 + countNodesList cs

def countNodesList : List BTreeNode → Nat
  | [] => 0
  | c :: cs => countNodes c + countNodesList cs

end

/-- Recursive node destroy, source lines 506-537: every node of the
subtree is freed and node_count is decremented once per node (the
ref_count of every node is 1 throughout the core).  Destructor hooks
are NULL in the int/int instantiation. -/
def btree_node_destroy (t : BTree) (n : BTreeNode) : BTree :=
  { t with node_count := t.node_count - countNodes n }

/-- Effect of memmove(dst = index+1, src = index, cnt elements) on a
physical array: slots index+1 .. index+cnt receive the old slots
index .. index+cnt-1, everything else keeps its content. -/
def memShiftR (a : List (Option Int)) (index cnt : Nat) : List (Option Int) :=
  a.take (index + 1) ++ (a.drop index).take cnt ++ a.drop (index + 1 + cnt)

/-- btree_node_insert_key, source lines 571-635, fused with the
child-slot store the callers perform right after it on success
(target->children[insert_pos + 1] = new_child, lines 909 and 923):
newChild is that stored child; the internal call sites always pass
one, and the leaf call sites pass none and have no child array.
Keys are always shifted right; values are shifted ONLY in a leaf
(the `node->is_leaf &&` guard on line 596) yet the new value is
written at index unconditionally (line 624); in an internal node the
child run gains the stored child at slot index + 1. -/
def btree_node_insert_key (capacity : Nat) (n : BTreeNode) (index : Int)
    (key : Int) (value : Option Int) (newChild : Option BTreeNode) :
    BTreeResult × BTreeNode :=
  match n with
  | .mk lf ks vs cs =>
    if index < 0 ∨ index > (ks.length : Int) then (.nullPointer, .mk lf ks vs cs)
    else if ks.length ≥ capacity then (.invalidOperation, .mk lf ks vs cs)
    else
      let i := index.toNat
      let ks' := ks.take i ++ key :: ks.drop i
      let vs' := (if lf then memShiftR vs i (ks.length - i) else vs).set i value
      let cs' :=
        if lf then cs
        else match newChild with
             | some c => cs.take (i + 1) ++ c :: cs.drop (i + 1)
             | none => cs
      (.success, .mk lf ks' vs' cs')

/-- btree_split_node, source lines 732-831.  Returns the shrunken
node, and on success the new right sibling together with the
promoted key and value (the split_key buffer of lines 752-774).
Keys K[mid+1..) move to the sibling; values move ONLY for a leaf
(the `node->is_leaf &&` guard on line 788), so an internal sibling
keeps its freshly allocated, indeterminate value slots; children
C[mid+1..] move for an internal node and their parent pointers are
rewritten (ownership transfer, implicit here).  On an allocation
failure the partially created sibling is destroyed and the node is
unchanged. -/
def btree_split_node (t : BTree) (n : BTreeNode) :
    BTreeResult × BTree × BTreeNode × Option (BTreeNode × Int × Option Int) :=
  match n with
  | .mk lf ks vs cs =>
    if ks.length < t.max_keys then (.invalidOperation, t, .mk lf ks vs cs, none)
    else
      match btree_node_create t lf with
      | (none, t₁) => (.memoryAllocation, t₁, .mk lf ks vs cs, none)
      | (some blank, t₁) =>
        let mid := t.min_keys
        let keysToMove := ks.length - mid - 1
        let r₂ := allocTry t₁
        if !r₂.1 then
          (.memoryAllocation, btree_node_destroy r₂.2 blank, .mk lf ks vs cs, none)
        else
          let sk := ks.getD mid 0
          let sv := vs.getD mid none
          let newKs := if keysToMove > 0 then (ks.drop (mid + 1)).take keysToMove else []
          let newVs :=
            if keysToMove > 0 ∧ lf then
              ((vs.drop (mid + 1)).take keysToMove)
                ++ List.replicate (t.max_keys - keysToMove) none
            else blank.values
          let newCs :=
            if keysToMove > 0 ∧ !lf then (cs.drop (mid + 1)).take (keysToMove + 1) else []
          (.success, r₂.2, .mk lf (ks.take mid) vs (cs.take (mid + 1)),
           some (.mk lf newKs newVs newCs, sk, sv))

/-- The child-split absorption of btree_insert_recursive, source
lines 886-929: the separator promoted from a split child is inserted
into this node (splitting it first when it is full), and the new
child is stored at the slot after it.  When this node's own split
fails the child_split_key buffer is freed and the new child of the
caller dangles, exactly as in the source. -/
def absorbChildSplit (t : BTree) (node : BTreeNode) (cnew : BTreeNode)
    (csk : Int) (csv : Option Int) :
    BTreeResult × BTree × BTreeNode × Option (BTreeNode × Int × Option Int) :=
  if node.keys.length ≥ t.max_keys then
    match btree_split_node t node with
    | (.success, t₁, left, some (right, sk, sv)) =>
      let cmp := btree_compare_int csk sk
      if cmp < 0 then
        let ip₀ := btree_node_find_key left.keys csk
        let ip := if ip₀ ≥ 0 then ip₀ else -(ip₀ + 1)
        let r := btree_node_insert_key t.max_keys left ip csk csv (some cnew)
        (r.1, t₁, r.2, some (right, sk, sv))
      else
        let ip₀ := btree_node_find_key right.keys csk
        let ip := if ip₀ ≥ 0 then ip₀ else -(ip₀ + 1)
        let r := btree_node_insert_key t.max_keys right ip csk csv (some cnew)
        (r.1, t₁, left, some (r.2, sk, sv))
    | (r, t₁, n', _) => (r, t₁, n', none)
  else
    let ip₀ := btree_node_find_key node.keys csk
    let ip := if ip₀ ≥ 0 then ip₀ else -(ip₀ + 1)
    let r := btree_node_insert_key t.max_keys node ip csk csv (some cnew)
    (r.1, t, r.2, none)

mutual

/-- btree_insert_recursive, source lines 836-933.  Result components:
result code, allocator/stat state, the updated node (the C code
mutates it in place, so it is updated even on error paths), and the
out-parameters (*new_child, *split_key key part, *split_key value
part) - set whenever this node was split, even if the final key
placement failed. -/
def btree_insert_recursive (t : BTree) (n : BTreeNode) (key : Int) (value : Option Int) :
    BTreeResult × BTree × BTreeNode × Option (BTreeNode × Int × Option Int) :=
  match n with
  | .mk lf ks vs cs =>
    let pos := btree_node_find_key ks key
    if pos ≥ 0 ∧ !t.allow_duplicates then (.duplicateKey, t, .mk lf ks vs cs, none)
    else if lf then
      let insertPos : Int := if pos ≥ 0 then pos else -(pos + 1)
      if ks.length ≥ t.max_keys then
        match btree_split_node t (.mk lf ks vs cs) with
        | (.success, t₁, left, some (right, sk, sv)) =>
          let cmp := btree_compare_int key sk
          if cmp < 0 then
            let r := btree_node_insert_key t.max_keys left insertPos key value none
            (r.1, t₁, r.2, some (right, sk, sv))
          else
            let r := btree_node_insert_key t.max_keys right
                       (insertPos - ((t.min_keys : Int) + 1)) key value none
            (r.1, t₁, left, some (r.2, sk, sv))
        | (r, t₁, n', _) => (r, t₁, n', none)
      else
        let r := btree_node_insert_key t.max_keys (.mk lf ks vs cs) insertPos key value none
        (r.1, t, r.2, none)
    else
      let childIndex : Nat := (if pos ≥ 0 then pos + 1 else -(pos + 1)).toNat
      match insertIntoChild t cs childIndex key value with
      | (r, t₁, cs', sp) =>
        if r ≠ .success then (r, t₁, .mk lf ks vs cs', none)
        else
          match sp with
          | none => (.success, t₁, .mk lf ks vs cs', none)
          | some (cnew, csk, csv) => absorbChildSplit t₁ (.mk lf ks vs cs') cnew csk csv

/-- Descent into children[childIndex] (source line 876): walks to the
child, recurses there, and writes the updated child back into the
child run.  The empty case corresponds to a missing child pointer,
on which the C code would dereference null; it is unreachable from
well-formed trees and modelled as an error with no change. -/
def insertIntoChild (t : BTree) (cs : List BTreeNode) (childIndex : Nat)
    (key : Int) (value : Option Int) :
    BTreeResult × BTree × List BTreeNode × Option (BTreeNode × Int × Option Int) :=
  match cs, childIndex with
  | [], _ => (.invalidOperation, t, [], none)
  | c :: rest, 0 =>
    match btree_insert_recursive t c key value with
    | (r, t₁, c', sp) => (r, t₁, c' :: rest, sp)
  | c :: rest, i + 1 =>
    match insertIntoChild t rest i key value with
    | (r, t₁, rest', sp) => (r, t₁, c :: rest', sp)

end

/-- btree_insert, source lines 938-995.  First insert allocates the
leaf root; otherwise the recursive insert runs and, if the root
split, a new internal root is built over the two halves (key_count
is incremented before that build, so a failed root allocation leaves
the incremented count and the shrunken old root behind, with the new
sibling dangling - exactly the source's behaviour). -/
def btree_insert (t : BTree) (key : Int) (value : Option Int) : BTreeResult × BTree :=
  match t.root with
  | none =>
    match btree_node_create t true with
    | (none, t₁) => (.memoryAllocation, t₁)
    | (some n, t₁) =>
      let t₂ := { t₁ with root := some n, height := 1 }
      let r := btree_node_insert_key t.max_keys n 0 key value none
      let t₃ := { t₂ with root := some r.2 }
      if r.1 = .success then (r.1, { t₃ with key_count := t₃.key_count + 1 })
      else (r.1, t₃)
  | some rootN =>
    match btree_insert_recursive t rootN key value with
    | (r, t₁, root', sp) =>
      let t₂ := { t₁ with root := some root' }
      if r = .success then
        let t₃ := { t₂ with key_count := t₂.key_count + 1 }
        match sp with
        | none => (.success, t₃)
        | some (nw, sk, sv) =>
          match btree_node_create t₃ false with
          | (none, t₄) => (.memoryAllocation, t₄)
          | (some _, t₄) =>
            let newRoot := BTreeNode.mk false [sk]
              ((List.replicate t.max_keys none).set 0 sv) [root', nw]
            (.success, { t₄ with root := some newRoot, height := t₄.height + 1 })
      else (r, t₂)

mutual

/-- The walk of btree_search, source lines 698-727: at each node a
hit returns the value slot (a non-null borrow whose content may be
indeterminate); a miss descends, or fails at a leaf. -/
def btree_search_node : BTreeNode → Int → Option (Option Int)
  | .mk lf ks vs cs, key =>
    let pos := btree_node_find_key ks key
    if pos ≥ 0 then some (vs.getD pos.toNat none)
    else if lf then none
    else searchChild cs (-(pos + 1)).toNat key

/-- Descent step of the search walk; a missing child pointer ends
the while loop with key-not-found (node becomes NULL). -/
def searchChild : List BTreeNode → Nat → Int → Option (Option Int)
  | [], _, _ => none
  | c :: _, 0, key => btree_search_node c key
  | _ :: cs, i + 1, key => searchChild cs i key

end

/-- btree_search on a nullable tree, source lines 698-727: none for
a null tree, a null root, or an absent key; some slot for a hit. -/
def btree_search (t? : Option BTree) (key : Int) : Option (Option Int) :=
  match t? with
  | none => none
  | some t =>
    match t.root with
    | none => none
    | some r => btree_search_node r key

/-- btree_delete, source lines 1000-1013: null checks, then the stub
body (the TODO comment on line 1009) that returns InvalidOperation
for every non-empty tree without touching it. -/
def btree_delete (t? : Option BTree) (key : Int) : BTreeResult × Option BTree :=
  match t? with
  | none => (.nullPointer, none)
  | some t =>
    match t.root with
    | none => (.keyNotFound, some t)
    | some _ => (.invalidOperation, some t)

/-- btree_size, source lines 1025-1027. -/
def btree_size (t? : Option BTree) : Nat :=
  match t? with
  | none => 0
  | some t => t.key_count

/-- btree_height, source lines 1032-1034. -/
def btree_height (t? : Option BTree) : Nat :=
  match t? with
  | none => 0
  | some t => t.height

/-- btree_is_empty, source lines 1039-1041. -/
def btree_is_empty (t? : Option BTree) : Bool :=
  match t? with
  | none => true
  | some t => t.root.isNone

/-- btree_clear, source lines 1046-1056: destroy the root subtree
(node_count drops by the number of reachable nodes), then zero root,
key_count and height. -/
def btree_clear (t? : Option BTree) : Option BTree :=
  match t? with
  | none => none
  | some t =>
    let t₁ :=
      match t.root with
      | none => t
      | some r => { btree_node_destroy t r with root := none }
    some { t₁ with key_count := 0, height := 0 }

/-- btree_init, source lines 391-424, with BTREE_MIN_DEGREE = 3 and
BTREE_MAX_DEGREE = 1024 from btree_types.h lines 14-15.  The three
Booleans state whether the tree reference and the two type-info
references are non-null; budget is the allocator attached to the
tree.  On failure nothing is initialised (no tree is produced). -/
def btree_init (treeRef keyTypeRef valueTypeRef : Bool) (degree : Int)
    (budget : Option Nat) : BTreeResult × Option BTree :=
  if !treeRef || !keyTypeRef || !valueTypeRef then (.nullPointer, none)
  else if degree < 3 ∨ degree > 1024 then (.invalidDegree, none)
  else
    (.success, some {
      root := none
      degree := degree.toNat
      max_keys := 2 * degree.toNat - 1
      min_keys := degree.toNat - 1
      height := 0
      node_count := 0
      key_count := 0
      allow_duplicates := false
      allocBudget := budget })

/-- Folds a list of (key, value) pairs through btree_insert,
collecting the result codes (a test-harness helper, not a source
function). -/
def btree_insert_list (t : BTree) : List (Int × Int) → BTree × List BTreeResult
  | [] => (t, [])
  | (k, v) :: rest =>
    match btree_insert t k (some v) with
    | (r, t₁) =>
      match btree_insert_list t₁ rest with
      | (t₂, rs) => (t₂, r :: rs)

/-- Per-pool counters, btree_memory.h pool stats.  The
fragmentation field of the C struct is a double and is omitted from
the model (floating point, out of scope); no claim touches it. -/
structure BTreePoolStats : Type where
  used_blocks : Nat
  free_blocks : Nat
  used_size : Nat
  free_size : Nat
  peak_usage : Nat
  allocation_count : Nat
  deallocation_count : Nat
deriving DecidableEq, Repr

/-- A slab pool, btree_memory.c: one contiguous region starting at
address pool_start of pool_size bytes, a free-list array holding
free_count live entries, and the counters.  Addresses are Nat with 0
playing NULL.  The ThreadSafe spin lock is a no-op in this
single-threaded model and the ZeroMemory memset touches only block
payload bytes, which the model does not track. -/
structure BTreePool : Type where
  pool_start : Nat
  pool_size : Nat
  block_size : Nat
  total_blocks : Nat
  free_list : List Nat
  free_count : Nat
  stats : BTreePoolStats
deriving DecidableEq, Repr

/-- btree_pool_contains, btree_memory.c lines 255-263: null pool or
null pointer is false; otherwise a bounds check against the region. -/
def btree_pool_contains (p? : Option BTreePool) (ptr : Nat) : Bool :=
  match p? with
  | none => false
  | some p =>
    if ptr = 0 then false
    else decide (p.pool_start ≤ ptr) && decide (ptr < p.pool_start + p.pool_size)

/-- btree_pool_alloc, btree_memory.c lines 177-215: an exhausted (or
null) pool fails before touching anything; otherwise the top
free-list block is popped and the counters updated. -/
def btree_pool_alloc (p? : Option BTreePool) : Option Nat × Option BTreePool :=
  match p? with
  | none => (none, none)
  | some p =>
    if p.free_count = 0 then (none, some p)
    else if p.free_count > 0 then
      let ptr := p.free_list.getD (p.free_count - 1) 0
      let st := p.stats
      let st₁ := { st with
        used_blocks := st.used_blocks + 1
        free_blocks := st.free_blocks - 1
        used_size := st.used_size + p.block_size
        free_size := st.free_size - p.block_size
        allocation_count := st.allocation_count + 1 }
      let st₂ := if st₁.used_size > st₁.peak_usage
                 then { st₁ with peak_usage := st₁.used_size } else st₁
      (some ptr, some { p with free_count := p.free_count - 1, stats := st₂ })
    else (none, some p)

/-- btree_pool_free, btree_memory.c lines 220-250: a null pool, a
null pointer or a pointer outside the region is ignored with no
effect at all; otherwise the block is pushed and the counters
updated (the fragmentation double the C code also writes there is
not modelled). -/
def btree_pool_free (p? : Option BTreePool) (ptr : Nat) : Option BTreePool :=
  match p? with
  | none => none
  | some p =>
    if ptr = 0 then some p
    else if !btree_pool_contains (some p) ptr then some p
    else if p.free_count < p.total_blocks then
      let st := p.stats
      let st₁ := { st with
        used_blocks := st.used_blocks - 1
        free_blocks := st.free_blocks + 1
        used_size := st.used_size - p.block_size
        free_size := st.free_size + p.block_size
        deallocation_count := st.deallocation_count + 1 }
      some { p with
        free_list := p.free_list.set p.free_count ptr
        free_count := p.free_count + 1
        stats := st₁ }
    else some p

/-- The tree btree_init builds for degree 3 with the default
(never-failing) allocator: max_keys 5, min_keys 2, no flags. -/
def emptyTree3 : BTree :=
  { root := none, degree := 3, max_keys := 5, min_keys := 2, height := 0,
    node_count := 0, key_count := 0, allow_duplicates := false, allocBudget := none }

/-- Sanity link: emptyTree3 is exactly what btree_init produces. -/
theorem emptyTree3_from_init : btree_init true true true 3 none = (.success, some emptyTree3) := rfl


/-- Tree after inserting (10, 100) into emptyTree3 (literal snapshot
of the run; each step below is checked against btree_insert). -/
def descT1 : BTree := { root := some (.mk true [10] [some 100, none, none, none, none] []), degree := 3, max_keys := 5, min_keys := 2, height := 1, node_count := 1, key_count := 1, allow_duplicates := false, allocBudget := none }

/-- Tree after the descending run 10, 9. -/
def descT2 : BTree := { root := some (.mk true [9, 10] [some 90, some 100, none, none, none] []), degree := 3, max_keys := 5, min_keys := 2, height := 1, node_count := 1, key_count := 2, allow_duplicates := false, allocBudget := none }

/-- Tree after the descending run 10, 9, 8. -/
def descT3 : BTree := { root := some (.mk true [8, 9, 10] [some 80, some 90, some 100, none, none] []), degree := 3, max_keys := 5, min_keys := 2, height := 1, node_count := 1, key_count := 3, allow_duplicates := false, allocBudget := none }

/-- Tree after the descending run 10, 9, 8, 7. -/
def descT4 : BTree := { root := some (.mk true [7, 8, 9, 10] [some 70, some 80, some 90, some 100, none] []), degree := 3, max_keys := 5, min_keys := 2, height := 1, node_count := 1, key_count := 4, allow_duplicates := false, allocBudget := none }

/-- Tree after the descending run 10, 9, 8, 7, 6: a full root leaf. -/
def descT5 : BTree := { root := some (.mk true [6, 7, 8, 9, 10] [some 60, some 70, some 80, some 90, some 100] []), degree := 3, max_keys := 5, min_keys := 2, height := 1, node_count := 1, key_count := 5, allow_duplicates := false, allocBudget := none }

/-- Tree after the descending run down to 5: the root leaf split,
(8, 80) was promoted into the new internal root. -/
def descT6 : BTree := { root := some (.mk false [8] [some 80, none, none, none, none] ((.mk true [5, 6, 7] [some 50, some 60, some 70, some 90, some 100] []) :: ((.mk true [9, 10] [some 90, some 100, none, none, none] []) :: []))), degree := 3, max_keys := 5, min_keys := 2, height := 2, node_count := 3, key_count := 6, allow_duplicates := false, allocBudget := none }

/-- Tree after the descending run down to 4. -/
def descT7 : BTree := { root := some (.mk false [8] [some 80, none, none, none, none] ((.mk true [4, 5, 6, 7] [some 40, some 50, some 60, some 70, some 100] []) :: ((.mk true [9, 10] [some 90, some 100, none, none, none] []) :: []))), degree := 3, max_keys := 5, min_keys := 2, height := 2, node_count := 3, key_count := 7, allow_duplicates := false, allocBudget := none }

/-- Tree after the descending run down to 3: the left leaf is full
again. -/
def descT8 : BTree := { root := some (.mk false [8] [some 80, none, none, none, none] ((.mk true [3, 4, 5, 6, 7] [some 30, some 40, some 50, some 60, some 70] []) :: ((.mk true [9, 10] [some 90, some 100, none, none, none] []) :: []))), degree := 3, max_keys := 5, min_keys := 2, height := 2, node_count := 3, key_count := 8, allow_duplicates := false, allocBudget := none }

/-- Tree after the descending run down to 2: the left leaf split and
(5, 50) was inserted at slot 0 of the internal root WITHOUT shifting
the root's value run, so the slot of key 8 now reads the stale
value-array byte range (indeterminate, none). -/
def descT9 : BTree := { root := some (.mk false [5, 8] [some 50, none, none, none, none] ((.mk true [2, 3, 4] [some 20, some 30, some 40, some 60, some 70] []) :: ((.mk true [6, 7] [some 60, some 70, none, none, none] []) :: ((.mk true [9, 10] [some 90, some 100, none, none, none] []) :: [])))), degree := 3, max_keys := 5, min_keys := 2, height := 2, node_count := 4, key_count := 9, allow_duplicates := false, allocBudget := none }

theorem descStep1 : btree_insert emptyTree3 10 (some 100) = (.success, descT1) := rfl

theorem descStep2 : btree_insert descT1 9 (some 90) = (.success, descT2) := rfl

theorem descStep3 : btree_insert descT2 8 (some 80) = (.success, descT3) := rfl

theorem descStep4 : btree_insert descT3 7 (some 70) = (.success, descT4) := rfl

theorem descStep5 : btree_insert descT4 6 (some 60) = (.success, descT5) := rfl

theorem descStep6 : btree_insert descT5 5 (some 50) = (.success, descT6) := rfl

theorem descStep7 : btree_insert descT6 4 (some 40) = (.success, descT7) := rfl

theorem descStep8 : btree_insert descT7 3 (some 30) = (.success, descT8) := rfl

theorem descStep9 : btree_insert descT8 2 (some 20) = (.success, descT9) := rfl

/-- The key sequence of the C1 counterexample run: descending keys
with value = 10 * key, degree 3. -/
def c1pairs : List (Int × Int) :=
  [(10, 100), (9, 90), (8, 80), (7, 70), (6, 60), (5, 50), (4, 40), (3, 30), (2, 20)]

/-- Claim C1: after a successful insert of (k, v) with no later
operation touching k, search(k) is claimed to return a reference to
a value equal to v.  The code violates this: inserting descending
keys makes a promoted separator land in the middle of the internal
root, and btree_node_insert_key does not shift the value run of an
internal node (line 596 guards the shift with is_leaf) while the
promoted value is written over slot 0; key 8 then resolves to an
indeterminate slot.  In the run below all nine inserts succeed,
(8, 80) was inserted and key 8 never touched again, the final search
finds key 8 (non-null reference), yet the referenced value is the
indeterminate slot, not 80. -/
theorem claim_c1_search_returns_corrupt_value :
    btree_insert_list emptyTree3 c1pairs = (descT9, List.replicate 9 .success) ∧
    (btree_search (some descT9) 8).isSome = true ∧
    btree_search (some descT9) 8 ≠ some (some 80) := by
  refine ⟨?_, by decide, by decide⟩
  simp only [c1pairs, btree_insert_list, descStep1, descStep2, descStep3, descStep4,
    descStep5, descStep6, descStep7, descStep8, descStep9]
  rfl

/-- A degree-3 tree holding only (1, 10). -/
def c2tree : BTree := { root := some (.mk true [1] [some 10, none, none, none, none] []), degree := 3, max_keys := 5, min_keys := 2, height := 1, node_count := 1, key_count := 1, allow_duplicates := false, allocBudget := none }

/-- Claim C2: delete is claimed to return one of Success, KeyNotFound,
MemoryAllocation, NullPointer, returning Success for a present key
and removing it.  The source's btree_delete (lines 1000-1013) is a
stub: for any non-empty tree it returns InvalidOperation, which is
none of the four claimed codes, and the present key is not removed. -/
theorem claim_c2_delete_stub :
    btree_insert emptyTree3 1 (some 10) = (.success, c2tree) ∧
    btree_search (some c2tree) 1 = some (some 10) ∧
    (btree_delete (some c2tree) 1).1 = .invalidOperation ∧
    (btree_delete (some c2tree) 1).1 ≠ .success ∧
    (btree_delete (some c2tree) 1).1 ≠ .keyNotFound ∧
    (btree_delete (some c2tree) 1).1 ≠ .memoryAllocation ∧
    (btree_delete (some c2tree) 1).1 ≠ .nullPointer ∧
    btree_search ((btree_delete (some c2tree) 1).2) 1 = some (some 10) :=
  ⟨rfl, by decide, by decide, by decide, by decide, by decide, by decide, by decide⟩

/-- Tree after inserting ascending (1,10) .. (5,50): a full degree-3
root leaf (literal snapshots, each step checked below). -/
def ascT1 : BTree := { root := some (.mk true [1] [some 10, none, none, none, none] []), degree := 3, max_keys := 5, min_keys := 2, height := 1, node_count := 1, key_count := 1, allow_duplicates := false, allocBudget := none }

/-- Ascending run after (2, 20). -/
def ascT2 : BTree := { root := some (.mk true [1, 2] [some 10, some 20, none, none, none] []), degree := 3, max_keys := 5, min_keys := 2, height := 1, node_count := 1, key_count := 2, allow_duplicates := false, allocBudget := none }

/-- Ascending run after (3, 30). -/
def ascT3 : BTree := { root := some (.mk true [1, 2, 3] [some 10, some 20, some 30, none, none] []), degree := 3, max_keys := 5, min_keys := 2, height := 1, node_count := 1, key_count := 3, allow_duplicates := false, allocBudget := none }

/-- Ascending run after (4, 40). -/
def ascT4 : BTree := { root := some (.mk true [1, 2, 3, 4] [some 10, some 20, some 30, some 40, none] []), degree := 3, max_keys := 5, min_keys := 2, height := 1, node_count := 1, key_count := 4, allow_duplicates := false, allocBudget := none }

/-- Ascending run after (5, 50): the full pre-call tree of the C3
scenario. -/
def ascT5 : BTree := { root := some (.mk true [1, 2, 3, 4, 5] [some 10, some 20, some 30, some 40, some 50] []), degree := 3, max_keys := 5, min_keys := 2, height := 1, node_count := 1, key_count := 5, allow_duplicates := false, allocBudget := none }

theorem ascStep1 : btree_insert emptyTree3 1 (some 10) = (.success, ascT1) := rfl

theorem ascStep2 : btree_insert ascT1 2 (some 20) = (.success, ascT2) := rfl

theorem ascStep3 : btree_insert ascT2 3 (some 30) = (.success, ascT3) := rfl

theorem ascStep4 : btree_insert ascT3 4 (some 40) = (.success, ascT4) := rfl

theorem ascStep5 : btree_insert ascT4 5 (some 50) = (.success, ascT5) := rfl

/-- The tree left behind by the failing C3 insert: the root was
shrunk to its left half, key_count and node_count were already
bumped, and the right sibling holding (4,50),(5,50),(6,60) dangles. -/
def c3postTree : BTree := { root := some (.mk true [1, 2] [some 10, some 20, some 30, some 40, some 50] []), degree := 3, max_keys := 5, min_keys := 2, height := 1, node_count := 2, key_count := 6, allow_duplicates := false, allocBudget := some 0 }

/-- Claim C3: an insert during which an allocation fails is claimed
to return MemoryAllocation with the tree identical to its pre-call
state (partially created sibling freed).  The code violates this:
with an allocator that satisfies the four allocations of the leaf
split (sibling node, key array, value array, split-key buffer) and
then fails, the new-root allocation at source line 970 fails AFTER
the recursion already split the old root and after key_count was
incremented (line 966).  Pre-call: root keys [1..5], key_count 5,
node_count 1.  Post-call: MemoryAllocation, root keys [1, 2],
key_count 6, node_count 2 - and the sibling was not freed. -/
theorem claim_c3_failed_split_mutates_tree :
    btree_insert_list emptyTree3 [(1, 10), (2, 20), (3, 30), (4, 40), (5, 50)] =
      (ascT5, List.replicate 5 .success) ∧
    btree_insert { ascT5 with allocBudget := some 4 } 6 (some 60) =
      (.memoryAllocation, c3postTree) ∧
    ascT5.key_count = 5 ∧ c3postTree.key_count = 6 ∧
    ascT5.node_count = 1 ∧ c3postTree.node_count = 2 ∧
    ascT5.root.map BTreeNode.keys = some [1, 2, 3, 4, 5] ∧
    c3postTree.root.map BTreeNode.keys = some [1, 2] := by
  refine ⟨?_, rfl, by decide, by decide, by decide, by decide, by decide, by decide⟩
  simp only [btree_insert_list, ascStep1, ascStep2, ascStep3, ascStep4, ascStep5]
  rfl
/-- Claim C9: alloc on an exhausted pool returns null with no other
effect, and free of a pointer outside the pool region is ignored,
leaving pool state, free list and statistics unchanged. -/
theorem claim_c9_pool_failure_modes (p q : BTreePool) (ptr : Nat)
    (hp : p.free_count = 0) (hq : btree_pool_contains (some q) ptr = false) :
    btree_pool_alloc (some p) = (none, some p) ∧
    btree_pool_free (some q) ptr = some q := by
  constructor
  · simp [btree_pool_alloc, hp]
  · by_cases h0 : ptr = 0
    · simp [btree_pool_free, h0]
    · simp [btree_pool_free, h0, hq]

/-- A concrete empty pool and a concrete pool for the C9 witness. -/
def c9stats : BTreePoolStats :=
  { used_blocks := 2, free_blocks := 0, used_size := 128, free_size := 0,
    peak_usage := 128, allocation_count := 2, deallocation_count := 0 }

/-- An exhausted two-block pool at address 64. -/
def c9pool : BTreePool :=
  { pool_start := 64, pool_size := 128, block_size := 64, total_blocks := 2,
    free_list := [64, 128], free_count := 0, stats := c9stats }

/-- Witness for claim C9 at a concrete exhausted pool and a pointer
below the region. -/
theorem claim_c9_witness :
    btree_pool_alloc (some c9pool) = (none, some c9pool) ∧
    btree_pool_free (some c9pool) 7 = some c9pool :=
  claim_c9_pool_failure_modes c9pool c9pool 7 (by decide) (by decide)

/-- Claim C10: the public queries are total on a null tree reference
and return the empty-tree defaults. -/
theorem claim_c10_null_tree_queries :
    btree_size none = 0 ∧ btree_height none = 0 ∧
    btree_is_empty none = true ∧ ∀ k : Int, btree_search none k = none :=
  ⟨rfl, rfl, rfl, fun _ => rfl⟩

/-- Claim C7: construction fails with InvalidDegree exactly when the
degree is outside [3, 1024] (BTREE_MIN_DEGREE / BTREE_MAX_DEGREE,
btree_types.h lines 14-15), with NullPointer when the tree reference
or either type-info reference is missing (the null check runs first,
source line 395), and on failure no tree state is initialised. -/
theorem claim_c7_init_validation (rT rK rV : Bool) (d : Int) (b : Option Nat) :
    ((rT = true ∧ rK = true ∧ rV = true) →
      ((btree_init rT rK rV d b).1 = .invalidDegree ↔ (d < 3 ∨ d > 1024))) ∧
    ((rT = false ∨ rK = false ∨ rV = false) →
      (btree_init rT rK rV d b).1 = .nullPointer) ∧
    ((btree_init rT rK rV d b).1 ≠ .success → (btree_init rT rK rV d b).2 = none) := by
  refine ⟨?_, ?_, ?_⟩
  · rintro ⟨hT, hK, hV⟩
    subst hT; subst hK; subst hV
    by_cases hd : d < 3 ∨ d > 1024
    · simp [btree_init, hd]
    · simp [btree_init, hd]
  · intro h
    rcases h with h | h | h <;> subst h <;> simp [btree_init]
  · by_cases hrefs : (!rT || !rK || !rV) = true
    · intro _; simp [btree_init, hrefs]
    · by_cases hd : d < 3 ∨ d > 1024
      · intro _; simp [btree_init, hrefs, hd]
      · intro h; exact absurd (by simp [btree_init, hrefs, hd]) h

/-- Witness for claim C7: degree 2000 with all references present
fails with InvalidDegree and produces no tree; a missing tree
reference fails with NullPointer. -/
theorem claim_c7_witness :
    (btree_init true true true 2000 none).1 = .invalidDegree ∧
    (btree_init false true true 5 none).1 = .nullPointer ∧
    (btree_init true true true 2000 none).2 = none :=
  ⟨((claim_c7_init_validation true true true 2000 none).1 ⟨rfl, rfl, rfl⟩).2 (by decide),
   (claim_c7_init_validation false true true 5 none).2.1 (Or.inl rfl),
   (claim_c7_init_validation true true true 2000 none).2.2 (by decide)⟩

/-- Claim C8: clear leaves the root absent and height, key_count and
node_count at zero.  node_count is decremented once per destroyed
reachable node, so the hypothesis states that the pre-call
node_count equals the number of reachable nodes (spec invariant 6;
it holds for every tree built without allocation failures). -/
theorem claim_c8_clear_resets (t : BTree)
    (h : t.node_count = (t.root.map countNodes).getD 0) :
    btree_clear (some t) =
      some { t with root := none, height := 0, key_count := 0, node_count := 0 } := by
  rcases t with ⟨root, deg, mx, mn, ht, nc, kc, ad, ab⟩
  cases root with
  | none => simp_all [btree_clear]
  | some r =>
    simp only [Option.map_some, Option.getD_some] at h
    simp [btree_clear, btree_node_destroy, h]

/-- Witness for claim C8 at the one-node tree holding (1, 10). -/
theorem claim_c8_witness :
    btree_clear (some c2tree) =
      some { c2tree with root := none, height := 0, key_count := 0, node_count := 0 } :=
  claim_c8_clear_resets c2tree (by decide)

/-- A throwaway leaf used as a child of the C4 counterexample node. -/
def c4leaf : BTreeNode := .mk true [0] [some 0] []

/-- A full degree-3 internal node with known parallel values. -/
def c4node : BTreeNode :=
  .mk false [1, 2, 3, 4, 5] [some 10, some 20, some 30, some 40, some 50]
    [c4leaf, c4leaf, c4leaf, c4leaf, c4leaf, c4leaf]

/-- Counterexample to claim C4 as stated: splitting a full INTERNAL
node moves keys K[t..2t-1) into the sibling but NOT their parallel
values (the value move at source line 788 is guarded by is_leaf), so
the sibling's value slots stay indeterminate: here the sibling keys
are [4, 5] but its first two value slots are [none, none], not
[some 40, some 50]. -/
theorem claim_c4_counterexample :
    (btree_split_node emptyTree3 c4node).1 = .success ∧
    ((btree_split_node emptyTree3 c4node).2.2.2.map (fun p => p.1.keys)) = some [4, 5] ∧
    ((btree_split_node emptyTree3 c4node).2.2.2.map (fun p => p.1.values.take 2)) =
      some [none, none] ∧
    some [(none : Option Int), none] ≠ some [some (40 : Int), some 50] := by decide

/-- Helper: with the never-failing allocator, node creation always
succeeds and returns a blank node, bumping node_count. -/
theorem node_create_budget_none (t : BTree) (lf : Bool) (h : t.allocBudget = none) :
    btree_node_create t lf =
      (some (.mk lf [] (List.replicate t.max_keys none) []),
       { t with node_count := t.node_count + 1 }) := by
  cases lf <;> simp [btree_node_create, allocTry, h]

/-- Claim C4, amended: splitting a node holding exactly 2t-1 keys
(with a non-failing allocator) creates a sibling of the same
leafness holding keys K[t..2t-1) - WITH their parallel values only
when the node is a LEAF; for an internal node the sibling's value
run stays indeterminate (freshly allocated) because the value move
at source line 788 is guarded by is_leaf.  An internal sibling also
receives children C[t..2t] (ownership moves, which reparents them).
K[t-1] and V[t-1] are promoted and the node keeps exactly t-1 keys. -/
theorem claim_c4_split_amended (t : BTree) (lf : Bool) (ks : List Int)
    (vs : List (Option Int)) (cs : List BTreeNode)
    (hb : t.allocBudget = none)
    (hmx : t.max_keys = 2 * t.degree - 1) (hmn : t.min_keys = t.degree - 1)
    (hd : 3 ≤ t.degree) (hk : ks.length = 2 * t.degree - 1)
    (hcs : cs.length = if lf then 0 else ks.length + 1) :
    btree_split_node t (.mk lf ks vs cs) =
      (.success, { t with node_count := t.node_count + 1 },
       .mk lf (ks.take (t.degree - 1)) vs (cs.take t.degree),
       some (.mk lf (ks.drop t.degree)
               (if lf then
                  (vs.drop t.degree).take (t.degree - 1)
                    ++ List.replicate (t.max_keys - (t.degree - 1)) none
                else List.replicate t.max_keys none)
               (cs.drop t.degree),
             ks.getD (t.degree - 1) 0, vs.getD (t.degree - 1) none)) := by
  obtain ⟨root, deg, mx, mn, ht, nc, kc, adup, ab⟩ := t
  dsimp only at hb hmx hmn hd hk hcs ⊢
  subst hb hmx hmn
  have hguard : ¬ (ks.length < 2 * deg - 1) := by omega
  simp only [btree_split_node,
    node_create_budget_none (BTree.mk root deg (2 * deg - 1) (deg - 1) ht nc kc adup none) lf rfl,
    hguard, if_false, allocTry, Bool.not_true, Bool.not_false, if_true]
  try dsimp only
  simp only [hk]
  have hmove : 2 * deg - 1 - (deg - 1) - 1 = deg - 1 := by omega
  have hsucc : deg - 1 + 1 = deg := by omega
  have hpos : 0 < deg - 1 := by omega
  simp only [hmove, hsucc, hpos, if_pos, gt_iff_lt, true_and, and_true]
  have hkd : (ks.drop deg).take (deg - 1) = ks.drop deg :=
    List.take_of_length_le (by simp [hk]; omega)
  cases lf with
  | true =>
    have hcs0 : cs = [] := List.length_eq_zero.mp (by simpa using hcs)
    subst hcs0
    simp [hkd]
  | false =>
    have hcd : (cs.drop deg).take (deg - 1 + 1) = cs.drop deg :=
      List.take_of_length_le (by simp [hcs, hk]; omega)
    simp [hkd, hcd, BTreeNode.values]
    simp only [Bool.false_eq_true, if_false] at hcs
    omega

/-- Witness for the amended claim C4 at a concrete full degree-3
root leaf. -/
theorem claim_c4_witness :
    btree_split_node emptyTree3
        (.mk true [1, 2, 3, 4, 5] [some 10, some 20, some 30, some 40, some 50] []) =
      (.success, { emptyTree3 with node_count := 1 },
       .mk true [1, 2] [some 10, some 20, some 30, some 40, some 50] [],
       some (.mk true [4, 5] [some 40, some 50, none, none, none] [], 3, some 30)) :=
  (claim_c4_split_amended emptyTree3 true [1, 2, 3, 4, 5]
    [some 10, some 20, some 30, some 40, some 50] [] rfl rfl rfl (by decide) (by decide)
    (by decide)).trans rfl

/-- Writing back the element a list already holds at an index leaves
the list unchanged. -/
theorem listSetSame {α : Type} : ∀ (l : List α) (i : Nat) (a : α),
    l[i]? = some a → l.set i a = l := by
  intro l
  induction l with
  | nil => intro i a h; cases h
  | cons x xs ih =>
    intro i a h
    cases i with
    | zero => simp at h; simp [h]
    | succ j => simp at h; simp [List.set, ih j a h]

/-- A successful search step through the child walker exposes the
child it went through. -/
theorem searchChild_some : ∀ (cs : List BTreeNode) (i : Nat) (key : Int) (s : Option Int),
    searchChild cs i key = some s →
    ∃ c, cs[i]? = some c ∧ btree_search_node c key = some s := by
  intro cs
  induction cs with
  | nil => intro i key s h; simp [searchChild] at h
  | cons c rest ih =>
    intro i key s h
    cases i with
    | zero => exact ⟨c, by simp, by simpa [searchChild] using h⟩
    | succ j =>
      obtain ⟨c', hc, hs⟩ := ih j key s (by simpa [searchChild] using h)
      exact ⟨c', by simpa using hc, hs⟩

/-- The insert child walker is exactly: recurse into the child at
the index and write the updated child back. -/
theorem insertIntoChild_eq : ∀ (cs : List BTreeNode) (i : Nat) (c : BTreeNode)
    (t : BTree) (key : Int) (v : Option Int) (r : BTreeResult) (t' : BTree)
    (c' : BTreeNode) (sp : Option (BTreeNode × Int × Option Int)),
    cs[i]? = some c →
    btree_insert_recursive t c key v = (r, t', c', sp) →
    insertIntoChild t cs i key v = (r, t', cs.set i c', sp) := by
  intro cs
  induction cs with
  | nil => intro i c t key v r t' c' sp h; cases h
  | cons x xs ih =>
    intro i c t key v r t' c' sp h hrec
    cases i with
    | zero =>
      rw [List.getElem?_cons_zero] at h
      injection h with h
      subst h
      simp [insertIntoChild, hrec]
    | succ j =>
      rw [List.getElem?_cons_succ] at h
      have hx := ih j c t key v r t' c' sp h hrec
      simp [insertIntoChild, hx]

/-- When the search walk finds the key and duplicates are
disallowed, the recursive insert returns DuplicateKey by the very
same descent (search and insert both descend through
btree_node_find_key with the same child index) and changes nothing. -/
theorem insertRec_of_found : ∀ (m : Nat) (n : BTreeNode) (t : BTree) (key : Int) (v : Option Int),
    sizeOf n ≤ m → t.allow_duplicates = false → (btree_search_node n key).isSome →
    btree_insert_recursive t n key v = (.duplicateKey, t, n, none) := by
  intro m
  induction m with
  | zero =>
    intro n t key v hsz
    obtain ⟨lf, ks, vs, cs⟩ := n
    simp [BTreeNode.mk.sizeOf_spec] at hsz
  | succ m ih =>
    intro n t key v hsz hdup hfound
    obtain ⟨lf, ks, vs, cs⟩ := n
    by_cases hpos : btree_node_find_key ks key ≥ 0
    · simp [btree_insert_recursive, hpos, hdup]
    · have hlf : lf = false := by
        by_contra hlf
        simp at hlf
        subst hlf
        simp [btree_search_node, hpos] at hfound
      subst hlf
      simp only [btree_search_node, hpos, if_false] at hfound
      obtain ⟨s, hs⟩ := Option.isSome_iff_exists.mp hfound
      obtain ⟨c, hc, hcs⟩ := searchChild_some cs _ key s (by simpa using hs)
      have hcm : c ∈ cs := List.getElem?_mem hc
      have hszc : sizeOf c ≤ m := by
        have h1 : sizeOf c < sizeOf cs := List.sizeOf_lt_of_mem hcm
        simp [BTreeNode.mk.sizeOf_spec] at hsz
        omega
      have hrec := ih c t key v hszc hdup (by simp [hcs])
      have hc' : cs[(-(btree_node_find_key ks key + 1)).toNat]? = some c := by
        have harith : -(btree_node_find_key ks key + 1) = -1 + -(btree_node_find_key ks key) := by
          omega
        rw [harith]
        exact hc
      have hput := insertIntoChild_eq cs ((-(btree_node_find_key ks key + 1)).toNat) c t key v
        .duplicateKey t c none hc' hrec
      simp only [btree_insert_recursive, hpos, if_false, hput, listSetSame cs _ c hc']
      simp

/-- Claim C6: on a tree built without the duplicates-allowed flag,
inserting a key the tree already holds (search finds it) returns
DuplicateKey and leaves the tree entirely unchanged - same record,
hence same contents, key_count, node_count, height - and the
original value of the key is still searchable. -/
theorem claim_c6_duplicate_insert_unchanged (t : BTree) (k : Int) (vNew : Int)
    (hdup : t.allow_duplicates = false)
    (hfound : (btree_search (some t) k).isSome) :
    btree_insert t k (some vNew) = (.duplicateKey, t) ∧
    btree_search (some (btree_insert t k (some vNew)).2) k = btree_search (some t) k := by
  have hmain : btree_insert t k (some vNew) = (.duplicateKey, t) := by
    obtain ⟨root, deg, mx, mn, ht, nc, kc, adup, ab⟩ := t
    dsimp only at hdup hfound ⊢
    subst hdup
    cases root with
    | none => simp [btree_search] at hfound
    | some r =>
      have hrec := insertRec_of_found (sizeOf r) r
        (BTree.mk (some r) deg mx mn ht nc kc false ab) k (some vNew)
        (le_refl _) rfl (by simpa [btree_search] using hfound)
      simp [btree_insert, hrec]
  exact ⟨hmain, by rw [hmain]⟩

/-- Witness for claim C6: re-inserting key 5 into the nine-key tree
of the descending run. -/
theorem claim_c6_witness :
    (btree_insert descT9 5 (some 999) = (.duplicateKey, descT9) ∧
     btree_search (some (btree_insert descT9 5 (some 999)).2) 5 = btree_search (some descT9) 5) :=
  claim_c6_duplicate_insert_unchanged descT9 5 999 rfl (by decide)

/-!
Development for claim C5: the structural invariants of every
reachable tree.  nodeWF encodes, for a candidate height h, exactly
the claim's properties: key-count bounds per node (root bound 1,
non-root bound min_keys) and uniform leaf depth (a leaf is well
formed only at h = 1 and an internal node only at h at least 2 with
every child well formed at h - 1, so every leaf of a well-formed
root sits at the same depth).
-/

mutual

/-- Key bounds and uniform leaf depth at height h (see above). -/
def nodeWF (minK maxK : Nat) : Bool → Nat → BTreeNode → Bool
  | isRoot, h, .mk lf ks _ cs =>
    decide ((if isRoot then 1 else minK) ≤ ks.length) &&
    decide (ks.length ≤ maxK) &&
    (if lf then decide (h = 1) && cs.isEmpty
     else decide (2 ≤ h) && decide (cs.length = ks.length + 1) &&
          childrenWF minK maxK (h - 1) cs)

/-- nodeWF (as a non-root) for every node of a child run. -/
def childrenWF (minK maxK : Nat) : Nat → List BTreeNode → Bool
  | _, [] => true
  | h, c :: cs => nodeWF minK maxK false h c && childrenWF minK maxK h cs

end

/-- The tree-header fields the insert path never writes; allocator
state and node_count may differ. -/
def sameCfg (a b : BTree) : Prop :=
  a.root = b.root ∧ a.degree = b.degree ∧ a.max_keys = b.max_keys ∧
  a.min_keys = b.min_keys ∧ a.height = b.height ∧ a.key_count = b.key_count ∧
  a.allow_duplicates = b.allow_duplicates

/-- The full tree invariant: degree field relations plus nodeWF of
the root at the stored height (height 0 when empty). -/
def btreeWF (t : BTree) : Prop :=
  t.min_keys = t.degree - 1 ∧ t.max_keys = 2 * t.degree - 1 ∧ 3 ≤ t.degree ∧
  match t.root with
  | none => t.height = 0
  | some r => nodeWF t.min_keys t.max_keys true t.height r = true

/-- Trees reachable through the public constructors and mutators:
btree_init with a valid degree and any allocator, btree_insert with
any key and value, btree_clear.  Allocator failures are included
(the initial budget is arbitrary). -/
inductive ReachableBTree : BTree → Prop where
  | init : ∀ (d : Int) (b : Option Nat) (t : BTree),
      btree_init true true true d b = (.success, some t) → ReachableBTree t
  | ins : ∀ (t : BTree) (k v : Int), ReachableBTree t →
      ReachableBTree (btree_insert t k (some v)).2
  | clr : ∀ (t t' : BTree), ReachableBTree t →
      btree_clear (some t) = some t' → ReachableBTree t'

theorem sameCfg_refl (a : BTree) : sameCfg a a := ⟨rfl, rfl, rfl, rfl, rfl, rfl, rfl⟩

theorem sameCfg_trans {a b c : BTree} (h1 : sameCfg a b) (h2 : sameCfg b c) : sameCfg a c := by
  obtain ⟨x1, x2, x3, x4, x5, x6, x7⟩ := h1
  obtain ⟨y1, y2, y3, y4, y5, y6, y7⟩ := h2
  exact ⟨x1.trans y1, x2.trans y2, x3.trans y3, x4.trans y4, x5.trans y5, x6.trans y6, x7.trans y7⟩

theorem allocTry_sameCfg (t : BTree) : sameCfg (allocTry t).2 t := by
  unfold allocTry
  rcases t.allocBudget with _ | n
  · exact sameCfg_refl t
  · rcases n with _ | n
    · exact sameCfg_refl t
    · exact ⟨rfl, rfl, rfl, rfl, rfl, rfl, rfl⟩

theorem node_create_cases (t : BTree) (lf : Bool) :
    (∃ t₁, btree_node_create t lf = (none, t₁) ∧ sameCfg t₁ t) ∨
    (∃ t₁, btree_node_create t lf =
      (some (.mk lf [] (List.replicate t.max_keys none) []), t₁) ∧ sameCfg t₁ t) := by
  unfold btree_node_create
  have s1 := allocTry_sameCfg t
  rcases h1 : allocTry t with ⟨b1, t1⟩
  rw [h1] at s1
  cases b1 with
  | false => exact Or.inl ⟨t1, by simp, s1⟩
  | true =>
    have s2 := allocTry_sameCfg t1
    rcases h2 : allocTry t1 with ⟨b2, t2⟩
    rw [h2] at s2
    cases b2 with
    | false => exact Or.inl ⟨t2, by simp [h2], sameCfg_trans s2 s1⟩
    | true =>
      have s3 := allocTry_sameCfg t2
      rcases h3 : allocTry t2 with ⟨b3, t3⟩
      rw [h3] at s3
      have s3' := sameCfg_trans s3 (sameCfg_trans s2 s1)
      cases b3 with
      | false => exact Or.inl ⟨t3, by simp [h2, h3], s3'⟩
      | true =>
        cases lf with
        | true =>
          refine Or.inr ⟨{ t3 with node_count := t3.node_count + 1 }, by simp [h2, h3], ?_⟩
          exact s3'
        | false =>
          have s4 := allocTry_sameCfg t3
          rcases h4 : allocTry t3 with ⟨b4, t4⟩
          rw [h4] at s4
          have s4' := sameCfg_trans s4 s3'
          cases b4 with
          | false => exact Or.inl ⟨t4, by simp [h2, h3, h4], s4'⟩
          | true =>
            refine Or.inr ⟨{ t4 with node_count := t4.node_count + 1 }, by simp [h2, h3, h4], ?_⟩
            exact s4'

theorem nodeWF_mk (minK maxK : Nat) (ir : Bool) (h : Nat) (lf : Bool)
    (ks : List Int) (vs : List (Option Int)) (cs : List BTreeNode) :
    nodeWF minK maxK ir h (.mk lf ks vs cs) = true ↔
      ((if ir then 1 else minK) ≤ ks.length ∧ ks.length ≤ maxK ∧
       (if lf then h = 1 ∧ cs = []
        else 2 ≤ h ∧ cs.length = ks.length + 1 ∧ childrenWF minK maxK (h - 1) cs = true)) := by
  cases lf <;> cases ir <;>
    simp [nodeWF, List.isEmpty_iff, and_assoc]

theorem childrenWF_cons_iff (minK maxK : Nat) (h : Nat) (c : BTreeNode) (cs : List BTreeNode) :
    childrenWF minK maxK h (c :: cs) = true ↔
      nodeWF minK maxK false h c = true ∧ childrenWF minK maxK h cs = true := by
  simp [childrenWF]

theorem childrenWF_append (minK maxK : Nat) (h : Nat) (l₁ l₂ : List BTreeNode) :
    childrenWF minK maxK h (l₁ ++ l₂) = true ↔
      childrenWF minK maxK h l₁ = true ∧ childrenWF minK maxK h l₂ = true := by
  induction l₁ with
  | nil => simp [childrenWF]
  | cons c cs ih => simp [childrenWF, ih, and_assoc]

theorem childrenWF_take (minK maxK : Nat) (h : Nat) (l : List BTreeNode) (n : Nat)
    (hl : childrenWF minK maxK h l = true) :
    childrenWF minK maxK h (l.take n) = true := by
  have := (childrenWF_append minK maxK h (l.take n) (l.drop n)).mp
    (by rw [List.take_append_drop]; exact hl)
  exact this.1

theorem childrenWF_drop (minK maxK : Nat) (h : Nat) (l : List BTreeNode) (n : Nat)
    (hl : childrenWF minK maxK h l = true) :
    childrenWF minK maxK h (l.drop n) = true := by
  have := (childrenWF_append minK maxK h (l.take n) (l.drop n)).mp
    (by rw [List.take_append_drop]; exact hl)
  exact this.2

theorem childrenWF_insertAt (minK maxK : Nat) (h : Nat) (l : List BTreeNode) (n : Nat)
    (c : BTreeNode) (hl : childrenWF minK maxK h l = true)
    (hc : nodeWF minK maxK false h c = true) :
    childrenWF minK maxK h (l.take n ++ c :: l.drop n) = true := by
  rw [childrenWF_append]
  exact ⟨childrenWF_take minK maxK h l n hl,
    (childrenWF_cons_iff minK maxK h c (l.drop n)).mpr ⟨hc, childrenWF_drop minK maxK h l n hl⟩⟩

theorem nodeWF_height_pos (minK maxK : Nat) (ir : Bool) (h : Nat) (n : BTreeNode)
    (hwf : nodeWF minK maxK ir h n = true) : 1 ≤ h := by
  obtain ⟨lf, ks, vs, cs⟩ := n
  rw [nodeWF_mk] at hwf
  cases lf <;> simp at hwf <;> omega

theorem nodeWF_weaken_root (minK maxK : Nat) (h : Nat) (n : BTreeNode)
    (hmk : 1 ≤ minK) (hwf : nodeWF minK maxK false h n = true) :
    nodeWF minK maxK true h n = true := by
  obtain ⟨lf, ks, vs, cs⟩ := n
  rw [nodeWF_mk] at hwf ⊢
  obtain ⟨h1, h2, h3⟩ := hwf
  refine ⟨?_, h2, h3⟩
  simp only [Bool.false_eq_true, if_false] at h1
  simp
  omega

theorem nik_fail (cap : Nat) (lf : Bool) (ks : List Int) (vs : List (Option Int))
    (cs : List BTreeNode) (i : Int) (k : Int) (v : Option Int) (nc : Option BTreeNode)
    (h : (i < 0 ∨ i > (ks.length : Int)) ∨ ks.length ≥ cap) :
    ∃ r, btree_node_insert_key cap (.mk lf ks vs cs) i k v nc = (r, .mk lf ks vs cs) ∧
      r ≠ .success := by
  by_cases h1 : i < 0 ∨ i > (ks.length : Int)
  · exact ⟨.nullPointer, by simp [btree_node_insert_key, h1], by decide⟩
  · have h2 : ks.length ≥ cap := by tauto
    exact ⟨.invalidOperation, by simp [btree_node_insert_key, h1, h2], by decide⟩

theorem nik_ok (cap : Nat) (lf : Bool) (ks : List Int) (vs : List (Option Int))
    (cs : List BTreeNode) (i : Int) (k : Int) (v : Option Int) (nc : Option BTreeNode)
    (h1 : 0 ≤ i) (h2 : i ≤ (ks.length : Int)) (h3 : ks.length < cap) :
    btree_node_insert_key cap (.mk lf ks vs cs) i k v nc =
      (.success, .mk lf (ks.take i.toNat ++ k :: ks.drop i.toNat)
        ((if lf then memShiftR vs i.toNat (ks.length - i.toNat) else vs).set i.toNat v)
        (if lf then cs
         else match nc with
              | some c => cs.take (i.toNat + 1) ++ c :: cs.drop (i.toNat + 1)
              | none => cs)) := by
  have hg1 : ¬ (i < 0 ∨ i > (ks.length : Int)) := by omega
  have hg2 : ¬ (ks.length ≥ cap) := by omega
  simp [btree_node_insert_key, hg1, hg2]

theorem nik_preserves_wf (minK maxK : Nat) (ir : Bool) (h : Nat)
    (lf : Bool) (ks : List Int) (vs : List (Option Int)) (cs : List BTreeNode)
    (i : Int) (k : Int) (v : Option Int) (nc : Option BTreeNode)
    (hwf : nodeWF minK maxK ir h (.mk lf ks vs cs) = true)
    (hnc : if lf then nc = (none : Option BTreeNode)
           else ∃ c, nc = some c ∧ nodeWF minK maxK false (h - 1) c = true) :
    ∀ r n', btree_node_insert_key maxK (.mk lf ks vs cs) i k v nc = (r, n') →
      nodeWF minK maxK ir h n' = true ∧
      (r = .success → n'.keys.length = ks.length + 1) ∧
      (r ≠ .success → n' = .mk lf ks vs cs) := by
  intro r n' heq
  by_cases hguard : (i < 0 ∨ i > (ks.length : Int)) ∨ ks.length ≥ maxK
  · obtain ⟨r₀, he, hr⟩ := nik_fail maxK lf ks vs cs i k v nc hguard
    rw [he] at heq
    obtain ⟨rfl, rfl⟩ := Prod.mk.injEq .. ▸ heq
    · exact ⟨hwf, fun hs => absurd hs.symm (by exact fun hh => hr hh.symm), fun _ => rfl⟩
  · push_neg at hguard
    obtain ⟨⟨hg1, hg2⟩, hg3⟩ := hguard
    rw [nik_ok maxK lf ks vs cs i k v nc hg1 hg2 hg3] at heq
    obtain ⟨rfl, rfl⟩ := Prod.mk.injEq .. ▸ heq
    rw [nodeWF_mk] at hwf
    obtain ⟨hb1, hb2, hrest⟩ := hwf
    have hlen : (ks.take i.toNat ++ k :: ks.drop i.toNat).length = ks.length + 1 := by
      simp [List.length_take, List.length_drop]
      omega
    refine ⟨?_, fun _ => by simpa [BTreeNode.keys] using hlen, fun hns => absurd rfl hns⟩
    rw [nodeWF_mk]
    refine ⟨by rw [hlen]; omega, by rw [hlen]; omega, ?_⟩
    cases lf with
    | true =>
      simp only [if_true] at hrest ⊢
      simp only [if_true] at hnc
      obtain ⟨hh, hcs⟩ := hrest
      exact ⟨hh, by simp [hcs]⟩
    | false =>
      simp only [Bool.false_eq_true, if_false] at hrest ⊢
      obtain ⟨c, rfl, hcwf⟩ := hnc
      obtain ⟨hh, hclen, hcwfl⟩ := hrest
      refine ⟨hh, ?_, ?_⟩
      · simp [List.length_take, List.length_drop, hlen]
        omega
      · exact childrenWF_insertAt minK maxK (h - 1) cs (i.toNat + 1) c hcwfl hcwf

theorem node_destroy_sameCfg (t : BTree) (n : BTreeNode) :
    sameCfg (btree_node_destroy t n) t := ⟨rfl, rfl, rfl, rfl, rfl, rfl, rfl⟩

theorem split_wf (minK maxK : Nat) (hrel : maxK = 2 * minK + 1) (hmk : 1 ≤ minK)
    (t : BTree) (hmin : t.min_keys = minK) (hmax : t.max_keys = maxK)
    (ir : Bool) (h : Nat) (lf : Bool) (ks : List Int) (vs : List (Option Int))
    (cs : List BTreeNode)
    (hwf : nodeWF minK maxK ir h (.mk lf ks vs cs) = true) :
    ∀ r t₁ n' sp, btree_split_node t (.mk lf ks vs cs) = (r, t₁, n', sp) →
      sameCfg t₁ t ∧
      (((r = .invalidOperation ∨ r = .memoryAllocation) ∧ n' = .mk lf ks vs cs ∧ sp = none) ∨
       (r = .success ∧ ∃ rks rvs rcs sk sv,
         sp = some (.mk lf rks rvs rcs, sk, sv) ∧
         nodeWF minK maxK false h n' = true ∧
         nodeWF minK maxK false h (.mk lf rks rvs rcs) = true ∧
         n'.isLeaf = lf)) := by
  intro r t₁ n' sp heq
  rw [nodeWF_mk] at hwf
  obtain ⟨hb1, hb2, hrest⟩ := hwf
  by_cases hlen : ks.length < t.max_keys
  · simp only [btree_split_node, if_pos hlen, Prod.mk.injEq] at heq
    obtain ⟨rfl, rfl, rfl, rfl⟩ := heq
    exact ⟨sameCfg_refl t, Or.inl ⟨Or.inl rfl, rfl, rfl⟩⟩
  · have hksl : ks.length = maxK := by rw [hmax] at hlen; omega
    rcases node_create_cases t lf with ⟨t₂, hcr, hcfg⟩ | ⟨t₂, hcr, hcfg⟩
    · simp only [btree_split_node, if_neg hlen, hcr, Prod.mk.injEq] at heq
      obtain ⟨rfl, rfl, rfl, rfl⟩ := heq
      exact ⟨hcfg, Or.inl ⟨Or.inr rfl, rfl, rfl⟩⟩
    · rcases h2 : allocTry t₂ with ⟨b2, t₃⟩
      have hcfg3 : sameCfg t₃ t := by
        have := allocTry_sameCfg t₂
        rw [h2] at this
        exact sameCfg_trans this hcfg
      cases b2 with
      | false =>
        simp only [btree_split_node, if_neg hlen, hcr, h2, Bool.not_false, if_false,
          Prod.mk.injEq] at heq
        obtain ⟨rfl, rfl, rfl, rfl⟩ := heq
        exact ⟨sameCfg_trans (node_destroy_sameCfg t₃ _) hcfg3,
          Or.inl ⟨Or.inr rfl, rfl, rfl⟩⟩
      | true =>
        simp only [btree_split_node, if_neg hlen, hcr, h2, Bool.not_true, if_true,
          Prod.mk.injEq] at heq
        have hmid : t.min_keys = minK := hmin
        rw [hmid] at heq
        have hmove : ks.length - minK - 1 = minK := by omega
        rw [hmove] at heq
        have hpos : 0 < minK := hmk
        simp only [hpos, if_pos, gt_iff_lt, true_and] at heq
        obtain ⟨rfl, rfl, rfl, rfl⟩ := heq
        refine ⟨hcfg3, Or.inr ⟨rfl, _, _, _, _, _, rfl, ?_, ?_, rfl⟩⟩
        · rw [nodeWF_mk]
          have hlt : (ks.take minK).length = minK := by
            simp [List.length_take]; omega
          refine ⟨by rw [hlt]; simp, by rw [hlt]; omega, ?_⟩
          cases lf with
          | true =>
            simp only [if_true] at hrest ⊢
            obtain ⟨hh, rfl⟩ := hrest
            exact ⟨hh, by simp⟩
          | false =>
            simp only [Bool.false_eq_true, if_false] at hrest ⊢
            obtain ⟨hh, hclen, hcw⟩ := hrest
            refine ⟨hh, ?_, childrenWF_take minK maxK (h - 1) cs (minK + 1) hcw⟩
            rw [hlt]
            simp [List.length_take]
            omega
        · rw [nodeWF_mk]
          cases lf with
          | true =>
            simp only [if_true] at hrest ⊢
            obtain ⟨hh, rfl⟩ := hrest
            have hrk : ((ks.drop (minK + 1)).take minK).length = minK := by
              simp [List.length_take, List.length_drop]
              omega
            refine ⟨by rw [hrk]; simp, by rw [hrk]; omega, hh, by simp⟩
          | false =>
            simp only [Bool.false_eq_true, if_false] at hrest ⊢
            obtain ⟨hh, hclen, hcw⟩ := hrest
            have hrk : ((ks.drop (minK + 1)).take minK).length = minK := by
              simp [List.length_take, List.length_drop]
              omega
            refine ⟨?_, ?_, hh, ?_, ?_⟩
            · rw [hrk]
            · rw [hrk]; omega
            · simp [hrk, List.length_take, List.length_drop]
              omega
            · have hx := childrenWF_take minK maxK (h - 1) (cs.drop (minK + 1)) (minK + 1)
                (childrenWF_drop minK maxK (h - 1) cs (minK + 1) hcw)
              simpa using hx

theorem absorb_wf (minK maxK : Nat) (hrel : maxK = 2 * minK + 1) (hmk : 1 ≤ minK)
    (t : BTree) (hmin : t.min_keys = minK) (hmax : t.max_keys = maxK)
    (ir : Bool) (h : Nat) (ks : List Int) (vs : List (Option Int)) (cs : List BTreeNode)
    (cnew : BTreeNode) (csk : Int) (csv : Option Int)
    (hwf : nodeWF minK maxK ir h (.mk false ks vs cs) = true)
    (hcn : nodeWF minK maxK false (h - 1) cnew = true) :
    ∀ r t₁ n' sp, absorbChildSplit t (.mk false ks vs cs) cnew csk csv = (r, t₁, n', sp) →
      sameCfg t₁ t ∧
      (match sp with
       | none => nodeWF minK maxK ir h n' = true
       | some (nw, _, _) =>
         nodeWF minK maxK false h n' = true ∧ nodeWF minK maxK false h nw = true) := by
  intro r t₁ n' sp heq
  by_cases hfull : ks.length ≥ t.max_keys
  · rcases hsp : btree_split_node t (.mk false ks vs cs) with ⟨rs, ts, ns, sps⟩
    obtain ⟨hcfgS, hdisj⟩ := split_wf minK maxK hrel hmk t hmin hmax ir h false ks vs cs hwf
      rs ts ns sps hsp
    rcases hdisj with ⟨hrs, rfl, rfl⟩ | ⟨rfl, rks, rvs, rcs, sk, sv, rfl, hwfL, hwfR, hlfL⟩
    · simp only [absorbChildSplit, BTreeNode.keys, if_pos hfull, hsp] at heq
      rcases hrs with rfl | rfl <;>
        (simp only [Prod.mk.injEq] at heq
         obtain ⟨rfl, rfl, rfl, rfl⟩ := heq
         exact ⟨hcfgS, hwf⟩)
    · obtain ⟨lfL, ksL, vsL, csL⟩ := ns
      have hlf : lfL = false := hlfL
      subst hlf
      simp only [absorbChildSplit, BTreeNode.keys, if_pos hfull, hsp] at heq
      by_cases hcmp : btree_compare_int csk sk < 0
      · simp only [hcmp, if_pos] at heq
        rcases hnik : btree_node_insert_key t.max_keys (.mk false ksL vsL csL)
            (let ip := btree_node_find_key ksL csk; if ip ≥ 0 then ip else -(ip + 1))
            csk csv (some cnew) with ⟨ri, tgt⟩
        rw [hmax] at hnik
        obtain ⟨hwfT, _, _⟩ := nik_preserves_wf minK maxK false h false ksL vsL csL _ csk csv
          (some cnew) hwfL (by exact ⟨cnew, rfl, hcn⟩) ri tgt hnik
        rw [hmax] at heq
        simp only [hnik, Prod.mk.injEq] at heq
        obtain ⟨rfl, rfl, rfl, rfl⟩ := heq
        exact ⟨hcfgS, hwfT, hwfR⟩
      · simp only [hcmp, if_neg, if_false] at heq
        rcases hnik : btree_node_insert_key t.max_keys (.mk false rks rvs rcs)
            (let ip := btree_node_find_key rks csk; if ip ≥ 0 then ip else -(ip + 1))
            csk csv (some cnew) with ⟨ri, tgt⟩
        rw [hmax] at hnik
        obtain ⟨hwfT, _, _⟩ := nik_preserves_wf minK maxK false h false rks rvs rcs _ csk csv
          (some cnew) hwfR (by exact ⟨cnew, rfl, hcn⟩) ri tgt hnik
        rw [hmax] at heq
        simp only [hnik, Prod.mk.injEq] at heq
        obtain ⟨rfl, rfl, rfl, rfl⟩ := heq
        exact ⟨hcfgS, hwfL, hwfT⟩
  · simp only [absorbChildSplit, BTreeNode.keys, if_neg hfull] at heq
    rcases hnik : btree_node_insert_key t.max_keys (.mk false ks vs cs)
        (let ip := btree_node_find_key ks csk; if ip ≥ 0 then ip else -(ip + 1))
        csk csv (some cnew) with ⟨ri, tgt⟩
    rw [hmax] at hnik
    obtain ⟨hwfT, _, _⟩ := nik_preserves_wf minK maxK ir h false ks vs cs _ csk csv
      (some cnew) hwf (by exact ⟨cnew, rfl, hcn⟩) ri tgt hnik
    rw [hmax] at heq
    simp only [hnik, Prod.mk.injEq] at heq
    obtain ⟨rfl, rfl, rfl, rfl⟩ := heq
    exact ⟨sameCfg_refl t, hwfT⟩

theorem nik_wf_snd (minK maxK : Nat) (ir : Bool) (h : Nat)
    (lf : Bool) (ks : List Int) (vs : List (Option Int)) (cs : List BTreeNode)
    (i : Int) (k : Int) (v : Option Int) (nc : Option BTreeNode)
    (hwf : nodeWF minK maxK ir h (.mk lf ks vs cs) = true)
    (hnc : if lf then nc = (none : Option BTreeNode)
           else ∃ c, nc = some c ∧ nodeWF minK maxK false (h - 1) c = true) :
    nodeWF minK maxK ir h (btree_node_insert_key maxK (.mk lf ks vs cs) i k v nc).2 = true :=
  (nik_preserves_wf minK maxK ir h lf ks vs cs i k v nc hwf hnc
    (btree_node_insert_key maxK (.mk lf ks vs cs) i k v nc).1
    (btree_node_insert_key maxK (.mk lf ks vs cs) i k v nc).2
    (by rw [Prod.mk.eta])).1

theorem sameCfg_min {a b : BTree} (h : sameCfg a b) : a.min_keys = b.min_keys := h.2.2.2.1

theorem sameCfg_max {a b : BTree} (h : sameCfg a b) : a.max_keys = b.max_keys := h.2.2.1

theorem insertRec_wf (minK maxK : Nat) (hrel : maxK = 2 * minK + 1) (hmk : 1 ≤ minK) :
    ∀ (h : Nat) (t : BTree) (n : BTreeNode) (key : Int) (v : Option Int) (ir : Bool),
      t.min_keys = minK → t.max_keys = maxK →
      nodeWF minK maxK ir h n = true →
      ∀ r t₁ n' sp, btree_insert_recursive t n key v = (r, t₁, n', sp) →
        sameCfg t₁ t ∧
        (match sp with
         | none => nodeWF minK maxK ir h n' = true
         | some (nw, _, _) =>
           nodeWF minK maxK false h n' = true ∧ nodeWF minK maxK false h nw = true) := by
  intro h
  induction h with
  | zero =>
    intro t n key v ir hmn hmx hwf
    exact absurd (nodeWF_height_pos minK maxK ir 0 n hwf) (by omega)
  | succ m ih =>
    have walker : ∀ (cs : List BTreeNode) (i : Nat) (t : BTree) (key : Int) (v : Option Int),
        t.min_keys = minK → t.max_keys = maxK →
        childrenWF minK maxK m cs = true →
        ∀ r t₁ cs' sp, insertIntoChild t cs i key v = (r, t₁, cs', sp) →
          sameCfg t₁ t ∧ childrenWF minK maxK m cs' = true ∧ cs'.length = cs.length ∧
          (match sp with
           | none => True
           | some (nw, _, _) => nodeWF minK maxK false m nw = true) := by
      intro cs
      induction cs with
      | nil =>
        intro i t key v hmn hmx hcw r t₁ cs' sp heq
        simp only [insertIntoChild, Prod.mk.injEq] at heq
        obtain ⟨rfl, rfl, rfl, rfl⟩ := heq
        exact ⟨sameCfg_refl t, hcw, rfl, trivial⟩
      | cons c rest ihw =>
        intro i t key v hmn hmx hcw r t₁ cs' sp heq
        rw [childrenWF_cons_iff] at hcw
        obtain ⟨hc, hrest⟩ := hcw
        cases i with
        | zero =>
          rcases hrec : btree_insert_recursive t c key v with ⟨rr, tt, cc, ss⟩
          simp only [insertIntoChild, hrec, Prod.mk.injEq] at heq
          obtain ⟨rfl, rfl, rfl, rfl⟩ := heq
          obtain ⟨hcfg, hconc⟩ := ih t c key v false hmn hmx hc rr tt cc ss hrec
          refine ⟨hcfg, ?_, by simp, ?_⟩
          · rw [childrenWF_cons_iff]
            rcases ss with _ | ⟨nw, sk, sv⟩
            · exact ⟨hconc, hrest⟩
            · exact ⟨hconc.1, hrest⟩
          · rcases ss with _ | ⟨nw, sk, sv⟩
            · trivial
            · exact hconc.2
        | succ j =>
          rcases hrec : insertIntoChild t rest j key v with ⟨rr, tt, rest', ss⟩
          simp only [insertIntoChild, hrec, Prod.mk.injEq] at heq
          obtain ⟨rfl, rfl, rfl, rfl⟩ := heq
          obtain ⟨hcfg, hcw', hlen, hnw⟩ := ihw j t key v hmn hmx hrest rr tt rest' ss hrec
          refine ⟨hcfg, ?_, by simp [hlen], hnw⟩
          rw [childrenWF_cons_iff]
          exact ⟨hc, hcw'⟩
    intro t n key v ir hmn hmx hwf r t₁ n' sp heq
    obtain ⟨lf, ks, vs, cs⟩ := n
    by_cases hdup : btree_node_find_key ks key ≥ 0 ∧ (!t.allow_duplicates) = true
    · simp only [btree_insert_recursive, if_pos hdup, Prod.mk.injEq] at heq
      obtain ⟨rfl, rfl, rfl, rfl⟩ := heq
      exact ⟨sameCfg_refl t, hwf⟩
    · cases lf with
      | true =>
        by_cases hfull : ks.length ≥ t.max_keys
        · rcases hsp : btree_split_node t (.mk true ks vs cs) with ⟨rs, ts, ns, sps⟩
          obtain ⟨hcfgS, hdisj⟩ := split_wf minK maxK hrel hmk t hmn hmx ir (m + 1) true
            ks vs cs hwf rs ts ns sps hsp
          rcases hdisj with ⟨hrs, rfl, rfl⟩ | ⟨rfl, rks, rvs, rcs, sk, sv, rfl, hwfL, hwfR, hlfL⟩
          · simp only [btree_insert_recursive, if_neg hdup, if_true, if_pos hfull, hsp] at heq
            rcases hrs with rfl | rfl <;>
              (simp only [Prod.mk.injEq] at heq
               obtain ⟨rfl, rfl, rfl, rfl⟩ := heq
               exact ⟨hcfgS, hwf⟩)
          · obtain ⟨lfL, ksL, vsL, csL⟩ := ns
            have hlf : lfL = true := hlfL
            subst hlf
            simp only [btree_insert_recursive, if_neg hdup, if_true, if_pos hfull, hsp] at heq
            by_cases hcmp : btree_compare_int key sk < 0
            · simp only [if_pos hcmp, Prod.mk.injEq] at heq
              obtain ⟨rfl, rfl, rfl, rfl⟩ := heq
              rw [hmx]
              refine ⟨hcfgS, ?_, hwfR⟩
              exact nik_wf_snd minK maxK false (m + 1) true ksL vsL csL _ key v none hwfL (by simp)
            · simp only [if_neg hcmp, Prod.mk.injEq] at heq
              obtain ⟨rfl, rfl, rfl, rfl⟩ := heq
              rw [hmx]
              refine ⟨hcfgS, hwfL, ?_⟩
              exact nik_wf_snd minK maxK false (m + 1) true rks rvs rcs _ key v none hwfR (by simp)
        · simp only [btree_insert_recursive, if_neg hdup, if_true, if_neg hfull,
            Prod.mk.injEq] at heq
          obtain ⟨rfl, rfl, rfl, rfl⟩ := heq
          rw [hmx]
          exact ⟨sameCfg_refl t,
            nik_wf_snd minK maxK ir (m + 1) true ks vs cs _ key v none hwf (by simp)⟩
      | false =>
        rcases hic : insertIntoChild t cs
            ((if btree_node_find_key ks key ≥ 0 then btree_node_find_key ks key + 1
              else -(btree_node_find_key ks key + 1)).toNat) key v with ⟨rr, tt, cs', ss⟩
        rw [nodeWF_mk] at hwf
        obtain ⟨hb1, hb2, hb3⟩ := hwf
        simp only [Bool.false_eq_true, if_false] at hb3
        obtain ⟨hh2, hclen, hcw⟩ := hb3
        obtain ⟨hcfg, hcw', hlen', hnw⟩ := walker cs _ t key v hmn hmx
          (by simpa using hcw) rr tt cs' ss hic
        have hwf' : nodeWF minK maxK ir (m + 1) (.mk false ks vs cs') = true := by
          rw [nodeWF_mk]
          refine ⟨hb1, hb2, ?_⟩
          simp only [Bool.false_eq_true, if_false]
          exact ⟨hh2, by omega, by simpa using hcw'⟩
        simp only [btree_insert_recursive, if_neg hdup, Bool.false_eq_true, if_false,
          hic] at heq
        by_cases hrr : rr = BTreeResult.success
        · subst hrr
          simp only [ne_eq, not_true_eq_false, if_false, reduceIte] at heq
          rcases ss with _ | ⟨⟨cnew, csk, csv⟩⟩
          · simp only [Prod.mk.injEq] at heq
            obtain ⟨rfl, rfl, rfl, rfl⟩ := heq
            exact ⟨hcfg, hwf'⟩
          · have hcn : nodeWF minK maxK false (m + 1 - 1) cnew = true := by
              simpa using hnw
            obtain ⟨hcfgA, hconcA⟩ := absorb_wf minK maxK hrel hmk tt
              (by rw [sameCfg_min hcfg, hmn]) (by rw [sameCfg_max hcfg, hmx]) ir (m + 1)
              ks vs cs' cnew csk csv hwf' hcn r t₁ n' sp heq
            exact ⟨sameCfg_trans hcfgA hcfg, hconcA⟩
        · simp only [ne_eq, hrr, not_false_eq_true, if_true, reduceIte, Prod.mk.injEq] at heq
          obtain ⟨rfl, rfl, rfl, rfl⟩ := heq
          exact ⟨hcfg, hwf'⟩

theorem btree_insert_wf (t : BTree) (k : Int) (v : Option Int) (hwf : btreeWF t) :
    btreeWF (btree_insert t k v).2 := by
  obtain ⟨hmn, hmx, hdeg, hroot⟩ := hwf
  have hrel : t.max_keys = 2 * t.min_keys + 1 := by omega
  have hmk : 1 ≤ t.min_keys := by omega
  rcases hr : t.root with _ | rootN
  · rw [hr] at hroot
    rcases node_create_cases t true with ⟨t₂, hcr, hcfg⟩ | ⟨t₂, hcr, hcfg⟩
    · simp only [btree_insert, hr, hcr]
      obtain ⟨c1, c2, c3, c4, c5, c6, c7⟩ := hcfg
      exact ⟨by rw [c4, hmn, c2], by rw [c3, hmx, c2], by rw [c2]; exact hdeg,
        by rw [c1, hr]; rw [c5]; exact hroot⟩
    · simp only [btree_insert, hr, hcr]
      rw [nik_ok t.max_keys true [] (List.replicate t.max_keys none) [] 0 k v none
        (by omega) (by simp) (by simp; omega)]
      obtain ⟨c1, c2, c3, c4, c5, c6, c7⟩ := hcfg
      simp only [reduceIte]
      refine ⟨?_, ?_, ?_, ?_⟩
      · show t₂.min_keys = t₂.degree - 1
        rw [c4, c2]; exact hmn
      · show t₂.max_keys = 2 * t₂.degree - 1
        rw [c3, c2]; exact hmx
      · show 3 ≤ t₂.degree
        rw [c2]; exact hdeg
      · show nodeWF t₂.min_keys t₂.max_keys true 1 _ = true
        rw [nodeWF_mk]
        refine ⟨by simp, ?_, by simp⟩
        rw [c3]
        simp
        omega
  · rw [hr] at hroot
    have hpos := nodeWF_height_pos t.min_keys t.max_keys true t.height rootN hroot
    rcases hins : btree_insert_recursive t rootN k v with ⟨rr, tt, root', ss⟩
    obtain ⟨hcfg, hconc⟩ := insertRec_wf t.min_keys t.max_keys hrel hmk t.height t rootN
      k v true rfl rfl hroot rr tt root' ss hins
    obtain ⟨c1, c2, c3, c4, c5, c6, c7⟩ := hcfg
    by_cases hrr : rr = BTreeResult.success
    · subst hrr
      rcases ss with _ | ⟨⟨nw, sk, sv⟩⟩
      · simp only [btree_insert, hr, hins, reduceIte]
        refine ⟨?_, ?_, ?_, ?_⟩
        · show tt.min_keys = tt.degree - 1
          rw [c4, c2]; exact hmn
        · show tt.max_keys = 2 * tt.degree - 1
          rw [c3, c2]; exact hmx
        · show 3 ≤ tt.degree
          rw [c2]; exact hdeg
        · show nodeWF tt.min_keys tt.max_keys true tt.height root' = true
          rw [c4, c3, c5]
          exact hconc
      · obtain ⟨hwfL, hwfR⟩ := hconc
        rcases node_create_cases
            { { tt with root := some root' } with
                key_count := { tt with root := some root' }.key_count + 1 } false with
          ⟨t₄, hcr, hcfg4⟩ | ⟨t₄, hcr, hcfg4⟩
        · simp only [btree_insert, hr, hins, reduceIte, hcr]
          obtain ⟨d1, d2, d3, d4, d5, d6, d7⟩ := hcfg4
          have d1' : t₄.root = some root' := d1
          have d2' : t₄.degree = tt.degree := d2
          have d3' : t₄.max_keys = tt.max_keys := d3
          have d4' : t₄.min_keys = tt.min_keys := d4
          have d5' : t₄.height = tt.height := d5
          refine ⟨?_, ?_, ?_, ?_⟩
          · show t₄.min_keys = t₄.degree - 1
            rw [d4', d2', c4, c2]; exact hmn
          · show t₄.max_keys = 2 * t₄.degree - 1
            rw [d3', d2', c3, c2]; exact hmx
          · show 3 ≤ t₄.degree
            rw [d2', c2]; exact hdeg
          · show (match t₄.root with
              | none => t₄.height = 0
              | some r => nodeWF t₄.min_keys t₄.max_keys true t₄.height r = true : Prop)
            rw [d1']
            simp only
            rw [d4', d3', d5', c4, c3, c5]
            exact nodeWF_weaken_root t.min_keys t.max_keys t.height root' hmk hwfL
        · simp only [btree_insert, hr, hins, reduceIte, hcr]
          obtain ⟨d1, d2, d3, d4, d5, d6, d7⟩ := hcfg4
          have d2' : t₄.degree = tt.degree := d2
          have d3' : t₄.max_keys = tt.max_keys := d3
          have d4' : t₄.min_keys = tt.min_keys := d4
          have d5' : t₄.height = tt.height := d5
          refine ⟨?_, ?_, ?_, ?_⟩
          · show t₄.min_keys = t₄.degree - 1
            rw [d4', d2', c4, c2]; exact hmn
          · show t₄.max_keys = 2 * t₄.degree - 1
            rw [d3', d2', c3, c2]; exact hmx
          · show 3 ≤ t₄.degree
            rw [d2', c2]; exact hdeg
          · show nodeWF t₄.min_keys t₄.max_keys true (t₄.height + 1)
              (.mk false [sk] ((List.replicate t.max_keys none).set 0 sv) [root', nw]) = true
            rw [d4', d3', d5', c4, c3, c5]
            rw [nodeWF_mk]
            refine ⟨by simp, ?_, ?_⟩
            · simp
              omega
            · simp only [Bool.false_eq_true, if_false]
              refine ⟨by omega, by simp, ?_⟩
              have hstep : t.height + 1 - 1 = t.height := by omega
              rw [hstep, childrenWF_cons_iff, childrenWF_cons_iff]
              exact ⟨hwfL, hwfR, rfl⟩
    · rcases ss with _ | ⟨⟨nw, sk, sv⟩⟩
      · simp only [btree_insert, hr, hins, if_neg hrr]
        refine ⟨?_, ?_, ?_, ?_⟩
        · show tt.min_keys = tt.degree - 1
          rw [c4, c2]; exact hmn
        · show tt.max_keys = 2 * tt.degree - 1
          rw [c3, c2]; exact hmx
        · show 3 ≤ tt.degree
          rw [c2]; exact hdeg
        · show nodeWF tt.min_keys tt.max_keys true tt.height root' = true
          rw [c4, c3, c5]
          exact hconc
      · simp only [btree_insert, hr, hins, if_neg hrr]
        refine ⟨?_, ?_, ?_, ?_⟩
        · show tt.min_keys = tt.degree - 1
          rw [c4, c2]; exact hmn
        · show tt.max_keys = 2 * tt.degree - 1
          rw [c3, c2]; exact hmx
        · show 3 ≤ tt.degree
          rw [c2]; exact hdeg
        · show nodeWF tt.min_keys tt.max_keys true tt.height root' = true
          rw [c4, c3, c5]
          exact nodeWF_weaken_root t.min_keys t.max_keys t.height root' hmk hconc.1

theorem btree_init_wf (d : Int) (b : Option Nat) (t : BTree)
    (heq : btree_init true true true d b = (.success, some t)) : btreeWF t := by
  by_cases hd : d < 3 ∨ d > 1024
  · simp [btree_init, hd] at heq
  · simp only [btree_init, Bool.not_true, Bool.or_self, Bool.false_or, if_neg hd] at heq
    have heq2 := heq
    simp only [Prod.mk.injEq, Option.some.injEq] at heq2
    obtain ⟨-, rfl⟩ := heq2
    refine ⟨rfl, rfl, by show 3 ≤ d.toNat; omega, rfl⟩

theorem btree_clear_wf (t t' : BTree) (hwf : btreeWF t)
    (heq : btree_clear (some t) = some t') : btreeWF t' := by
  obtain ⟨hmn, hmx, hdeg, -⟩ := hwf
  rcases hr : t.root with _ | r
  · simp only [btree_clear, hr, Option.some.injEq] at heq
    subst heq
    exact ⟨hmn, hmx, hdeg, rfl⟩
  · simp only [btree_clear, hr, Option.some.injEq] at heq
    subst heq
    exact ⟨hmn, hmx, hdeg, rfl⟩

theorem reachable_wf (t : BTree) (h : ReachableBTree t) : btreeWF t := by
  induction h with
  | init d b t heq => exact btree_init_wf d b t heq
  | ins t k v _ ihwf => exact btree_insert_wf t k (some v) ihwf
  | clr t t' _ hceq ihwf => exact btree_clear_wf t t' ihwf hceq

/-- Claim C5: every tree reachable from construction through the
public mutators (insert with any allocator behaviour, clear) is
structurally sound: if the root is present there is a height h such
that nodeWF holds of the root - which says exactly that every leaf
sits at depth h (leaves are the nodes with h = 1, every internal
level steps h down by one), every non-root node has between t-1 and
2t-1 keys, and the root itself has between 1 and 2t-1 keys; when the
tree is empty the root is absent. -/
theorem claim_c5_structural_invariants (t : BTree) (hreach : ReachableBTree t) :
    ∀ rt, t.root = some rt →
      ∃ h, nodeWF (t.degree - 1) (2 * t.degree - 1) true h rt = true := by
  intro rt hr
  obtain ⟨hmn, hmx, hdeg, hroot⟩ := reachable_wf t hreach
  rw [hr] at hroot
  exact ⟨t.height, by rw [← hmn, ← hmx]; exact hroot⟩

/-- The descending nine-insert tree is reachable from btree_init. -/
theorem reachable_descT9 : ReachableBTree descT9 := by
  have h0 : ReachableBTree emptyTree3 :=
    .init 3 none emptyTree3 emptyTree3_from_init
  have h1 : ReachableBTree descT1 := by
    have hx := ReachableBTree.ins emptyTree3 10 100 h0
    rwa [descStep1] at hx
  have h2 : ReachableBTree descT2 := by
    have hx := ReachableBTree.ins descT1 9 90 h1
    rwa [descStep2] at hx
  have h3 : ReachableBTree descT3 := by
    have hx := ReachableBTree.ins descT2 8 80 h2
    rwa [descStep3] at hx
  have h4 : ReachableBTree descT4 := by
    have hx := ReachableBTree.ins descT3 7 70 h3
    rwa [descStep4] at hx
  have h5 : ReachableBTree descT5 := by
    have hx := ReachableBTree.ins descT4 6 60 h4
    rwa [descStep5] at hx
  have h6 : ReachableBTree descT6 := by
    have hx := ReachableBTree.ins descT5 5 50 h5
    rwa [descStep6] at hx
  have h7 : ReachableBTree descT7 := by
    have hx := ReachableBTree.ins descT6 4 40 h6
    rwa [descStep7] at hx
  have h8 : ReachableBTree descT8 := by
    have hx := ReachableBTree.ins descT7 3 30 h7
    rwa [descStep8] at hx
  have hx := ReachableBTree.ins descT8 2 20 h8
  rwa [descStep9] at hx

/-- Witness for claim C5 at the reachable descending-run tree. -/
theorem claim_c5_witness :
    ∃ h, nodeWF (descT9.degree - 1) (2 * descT9.degree - 1) true h
      (.mk false [5, 8] [some 50, none, none, none, none]
        ((.mk true [2, 3, 4] [some 20, some 30, some 40, some 60, some 70] []) ::
          ((.mk true [6, 7] [some 60, some 70, none, none, none] []) ::
            ((.mk true [9, 10] [some 90, some 100, none, none, none] []) :: [])))) = true :=
  claim_c5_structural_invariants descT9 reachable_descT9 _ rfl
